import Mathlib

/-!
Verification of the safety-gated tmux session interaction engine of
semistrict/mcpservers. The definitions below are a shallow embedding of the
Go source: pure helpers (hashing, output formatting, session-name
resolution) become Lean functions; the polling waiters become step
functions over explicit tick traces; backend (tmux) calls become oracle
parameters, and the sequence of issued backend calls is returned as an
explicit trace so that theorems can speak about which mutating calls were
issued.

Two generations of the code coexist in the repository and are both
embedded where the claims cite both: the current `tmuxmcp` package
(free functions `calculateHash`, `formatOutput`, `waitForStability`,
`waitForExpected`, `sendKeysCommon`, ...) and the older `tmux` package
(`Client.calculateHash`, `Client.formatOutput`, `Client.waitForExpected`).
-/

namespace Tmux

/-! ## Byte-level helpers (Go strings and []byte) -/

/-- Go `unicode.IsSpace` restricted to the Latin-1 range (the only
whitespace characters exercised here): space, tab, newline, vertical tab,
form feed, carriage return, NEL, NBSP. -/
def goIsSpace (c : Char) : Bool :=
  c = ' ' || c = '\t' || c = '\n' || c.toNat = 11 || c.toNat = 12 ||
  c = '\r' || c.toNat = 133 || c.toNat = 160

/-- Go `strings.TrimSpace`: drop leading and trailing whitespace. -/
def trimSpace (s : String) : String :=
  String.mk (((s.toList.dropWhile goIsSpace).reverse.dropWhile goIsSpace).reverse)

/-- Split a character list at newlines; `cur` is the reversed current
segment. Structural so that it reduces in the kernel. -/
def splitLinesAux (cur : List Char) : List Char → List (List Char)
  | [] => [cur.reverse]
  | c :: rest =>
    if c = '\n' then cur.reverse :: splitLinesAux [] rest
    else splitLinesAux (c :: cur) rest

/-- Go `strings.Split(s, "\n")`: the list of lines, one more piece than
there are newlines (an empty string yields one empty piece). -/
def splitLines (s : String) : List String :=
  (splitLinesAux [] s.toList).map String.mk

/-- Go `strings.HasPrefix s pre`. -/
def hasPrefixStr (s pre : String) : Bool :=
  pre.toList.isPrefixOf s.toList

/-- Substring test on char lists: does the needle occur as a contiguous
infix of the haystack? (Go `strings.Contains`.) -/
def containsAux (needle : List Char) : List Char → Bool
  | [] => needle.isEmpty
  | c :: rest => needle.isPrefixOf (c :: rest) || containsAux needle rest

/-- Go `strings.Contains hay needle`. -/
def containsSubstr (hay needle : String) : Bool :=
  containsAux needle.toList hay.toList

/-- UTF-8 encoding of one character, as Go produces with `[]byte(s)`. -/
def utf8EncodeChar (c : Char) : List Nat :=
  let n := c.toNat
  if n < 128 then [n]
  else if n < 2048 then [192 ||| (n >>> 6), 128 ||| (n &&& 63)]
  else if n < 65536 then
    [224 ||| (n >>> 12), 128 ||| ((n >>> 6) &&& 63), 128 ||| (n &&& 63)]
  else
    [240 ||| (n >>> 18), 128 ||| ((n >>> 12) &&& 63),
     128 ||| ((n >>> 6) &&& 63), 128 ||| (n &&& 63)]

/-- The byte sequence of a Go string (`[]byte(content)`). -/
def utf8Bytes (s : String) : List Nat :=
  (s.toList.map utf8EncodeChar).flatten

/-! ## SHA-256 (`crypto/sha256.Sum256`), executable over byte lists -/

def w32 : Nat := 4294967296

def rotr (n w : Nat) : Nat := ((w >>> n) ||| (w <<< (32 - n))) % w32

def bigS0 (x : Nat) : Nat := rotr 2 x ^^^ rotr 13 x ^^^ rotr 22 x

def bigS1 (x : Nat) : Nat := rotr 6 x ^^^ rotr 11 x ^^^ rotr 25 x

def smallS0 (x : Nat) : Nat := rotr 7 x ^^^ rotr 18 x ^^^ (x >>> 3)

def smallS1 (x : Nat) : Nat := rotr 17 x ^^^ rotr 19 x ^^^ (x >>> 10)

def chF (e f g : Nat) : Nat := (e &&& f) ^^^ ((e ^^^ (w32 - 1)) &&& g)

def majF (m n p : Nat) : Nat := (m &&& n) ^^^ (m &&& p) ^^^ (n &&& p)

/-- The 64 SHA-256 round constants (the fractional parts of the cube
roots of the first 64 primes, as 32-bit words, written in decimal). -/
def kTable : List Nat :=
  [1116352408, 1899447441, 3049323471, 3921009573, 961987163,
   1508970993, 2453635748, 2870763221, 3624381080, 310598401,
   607225278, 1426881987, 1925078388, 2162078206, 2614888103,
   3248222580, 3835390401, 4022224774, 264347078, 604807628,
   770255983, 1249150122, 1555081692, 1996064986, 2554220882,
   2821834349, 2952996808, 3210313671, 3336571891, 3584528711,
   113926993, 338241895, 666307205, 773529912, 1294757372,
   1396182291, 1695183700, 1986661051, 2177026350, 2456956037,
   2730485921, 2820302411, 3259730800, 3345764771, 3516065817,
   3600352804, 4094571909, 275423344, 430227734, 506948616,
   659060556, 883997877, 958139571, 1322822218, 1537002063,
   1747873779, 1955562222, 2024104815, 2227730452, 2361852424,
   2428436474, 2756734187, 3204031479, 3329325298]

structure Hash8 where
  a : Nat
  b : Nat
  c : Nat
  d : Nat
  e : Nat
  f : Nat
  g : Nat
  h : Nat
deriving DecidableEq

/-- The eight SHA-256 initial hash values, in decimal. -/
def initHash : Hash8 :=
  ⟨1779033703, 3144134277, 1013904242, 2773480762,
   1359893119, 2600822924, 528734635, 1541459225⟩

def roundStep (st : Hash8) (kw : Nat) : Hash8 :=
  let t1 := (st.h + bigS1 st.e + chF st.e st.f st.g + kw) % w32
  let t2 := (bigS0 st.a + majF st.a st.b st.c) % w32
  ⟨(t1 + t2) % w32, st.a, st.b, st.c, (st.d + t1) % w32, st.e, st.f, st.g⟩

/-- One step of the message-schedule extension, on the reversed schedule. -/
def schedStep (rev : List Nat) : List Nat :=
  let g := fun i => rev.getD i 0
  ((g 15 + smallS0 (g 14) + g 6 + smallS1 (g 1)) % w32) :: rev

def buildSched (initRev : List Nat) : Nat → List Nat
  | 0 => initRev
  | n + 1 => schedStep (buildSched initRev n)

/-- Split a list into chunks of k elements (fuel-based so that it reduces
in the kernel). -/
def chunksOfAux (k : Nat) : Nat → List Nat → List (List Nat)
  | 0, _ => []
  | _, [] => []
  | fuel + 1, xs => xs.take k :: chunksOfAux k fuel (xs.drop k)

def chunksOf (k : Nat) (xs : List Nat) : List (List Nat) :=
  chunksOfAux k xs.length xs

/-- Big-endian 32-bit word from 4 bytes. -/
def wordOfBytes (bs : List Nat) : Nat :=
  bs.foldl (fun acc b => acc * 256 + b) 0

def processBlock (st : Hash8) (block : List Nat) : Hash8 :=
  let ws16 := (chunksOf 4 block).map wordOfBytes
  let ws := (buildSched ws16.reverse 48).reverse
  let st2 := (kTable.zip ws).foldl (fun s p => roundStep s ((p.1 + p.2) % w32)) st
  ⟨(st.a + st2.a) % w32, (st.b + st2.b) % w32, (st.c + st2.c) % w32, (st.d + st2.d) % w32,
   (st.e + st2.e) % w32, (st.f + st2.f) % w32, (st.g + st2.g) % w32, (st.h + st2.h) % w32⟩

/-- SHA-256 padding: 0x80, zeros to 56 mod 64, 8-byte big-endian bit length. -/
def padMessage (msg : List Nat) : List Nat :=
  let len := msg.length
  let zeros := (119 - len % 64) % 64
  let bitLen := len * 8
  msg ++ [0x80] ++ List.replicate zeros 0 ++
    [bitLen >>> 56 &&& 255, bitLen >>> 48 &&& 255, bitLen >>> 40 &&& 255, bitLen >>> 32 &&& 255,
     bitLen >>> 24 &&& 255, bitLen >>> 16 &&& 255, bitLen >>> 8 &&& 255, bitLen &&& 255]

/-- The eight 32-bit digest words of SHA-256 of a byte list. -/
def sha256Words (msg : List Nat) : List Nat :=
  let st := (chunksOf 64 (padMessage msg)).foldl processBlock initHash
  [st.a, st.b, st.c, st.d, st.e, st.f, st.g, st.h]

def hexDigitChar (n : Nat) : Char :=
  if n = 0 then '0' else if n = 1 then '1' else if n = 2 then '2' else if n = 3 then '3'
  else if n = 4 then '4' else if n = 5 then '5' else if n = 6 then '6' else if n = 7 then '7'
  else if n = 8 then '8' else if n = 9 then '9' else if n = 10 then 'a' else if n = 11 then 'b'
  else if n = 12 then 'c' else if n = 13 then 'd' else if n = 14 then 'e' else 'f'

/-- Lowercase hex rendering of a 32-bit word, 8 characters
(one digit per nibble, as `fmt.Sprintf("%x", ...)` prints a full digest). -/
def hexWord32 (w : Nat) : List Char :=
  [hexDigitChar (w / 268435456 % 16), hexDigitChar (w / 16777216 % 16),
   hexDigitChar (w / 1048576 % 16), hexDigitChar (w / 65536 % 16),
   hexDigitChar (w / 4096 % 16), hexDigitChar (w / 256 % 16),
   hexDigitChar (w / 16 % 16), hexDigitChar (w % 16)]

/-- The 64-character hex digest `fmt.Sprintf("%x", sha256.Sum256([]byte(s)))`. -/
def sha256HexChars (s : String) : List Char :=
  ((sha256Words (utf8Bytes s)).map hexWord32).flatten

/-- tmuxmcp `calculateHash` (client.go): hash the exact bytes, hex-encode,
truncate to 8 hex characters. No normalization of any kind. -/
def calculateHash (content : String) : String :=
  String.mk ((sha256HexChars content).take 8)

/-- Older `tmux` package `Client.calculateHash` (client.go): identical to
the free function except that whitespace-only content is mapped to the
constant string "empty" before any hashing. -/
def Client.calculateHash (content : String) : String :=
  if trimSpace content = "" then "empty" else Tmux.calculateHash content

/-! ## Output formatting (`formatOutput`)

Both variants walk the lines, numbering non-blank lines and collapsing
runs of two or more blank lines into a count marker; they differ only in
the marker text ("empty testLines" in the tmuxmcp variant, "empty lines"
in the older Client variant). -/

/-- The line-walking loop of `formatOutput`, carrying the 1-based line
number and the current run length of blank lines, parameterized by the
marker word so both source variants share one definition. -/
def formatLines (marker : String) : Nat → Nat → List String → List String
  | _, emptyCount, [] =>
    if 1 < emptyCount then ["... " ++ toString emptyCount ++ " " ++ marker ++ " ..."] else []
  | lineNum, emptyCount, line :: rest =>
    if trimSpace line = "" then
      (if emptyCount = 0 then ["[" ++ toString lineNum ++ "]: "] else []) ++
        formatLines marker (lineNum + 1) (emptyCount + 1) rest
    else
      (if 1 < emptyCount then ["... " ++ toString emptyCount ++ " " ++ marker ++ " ..."] else []) ++
        (["[" ++ toString lineNum ++ "]: " ++ line] ++ formatLines marker (lineNum + 1) 0 rest)

/-- tmuxmcp `formatOutput` (client.go): marker says "empty testLines". -/
def formatOutput (output : String) : String :=
  String.intercalate "\n" (formatLines "empty testLines" 1 0 (splitLines output))

/-- Older `tmux` package `Client.formatOutput`: marker says "empty lines". -/
def Client.formatOutput (output : String) : String :=
  String.intercalate "\n" (formatLines "empty lines" 1 0 (splitLines output))

/-! ## Capture snapshots -/

/-- The `captureResult` produced by tmuxmcp `capture`: formatted output
plus the fingerprint of the raw captured bytes. -/
structure CaptureRes where
  sessionName : String
  output : String
  hash : String
deriving DecidableEq

/-- tmuxmcp `capture` applied to a raw capture-pane payload: `Output` is
the formatted text, `Hash` is the fingerprint of the raw text. -/
def mkCapture (name raw : String) : CaptureRes :=
  ⟨name, formatOutput raw, calculateHash raw⟩

/-- Older `tmux` package `Client.Capture` applied to a raw payload. -/
def Client.mkCapture (name raw : String) : CaptureRes :=
  ⟨name, Client.formatOutput raw, Client.calculateHash raw⟩

/-- The line the cursor occupies: `lines[cursorY]` when the index is in
range, the empty string otherwise (`captureWithCursor`, client.go). -/
def cursorLineOf (raw : String) (y : Int) : String :=
  let lines := splitLines raw
  if 0 ≤ y ∧ y < (lines.length : Int) then lines.getD y.toNat "" else ""

/-! ## SessionDirectory: `list` and `resolveSession` (client.go)

The backend response to `tmux list-sessions` is `some output` on success
and `none` on failure; `list` turns a failure into an empty list. -/

/-- tmuxmcp `list`: on backend failure return `[]`; otherwise split the
trimmed output into names and filter by prefix (empty prefix keeps all). -/
def listSessions (backendResp : Option String) (pfx : String) : List String :=
  match backendResp with
  | none => []
  | some output =>
    let sessions := splitLines (trimSpace output)
    if pfx = "" then sessions else sessions.filter (fun s => hasPrefixStr s pfx)

/-- tmuxmcp `findSessionsByPrefix`: filter the full list by prefix. -/
def findSessionsByPrefixModel (backendResp : Option String) (pfx : String) : List String :=
  (listSessions backendResp "").filter (fun s => hasPrefixStr s pfx)

/-- Outcome of `resolveSession`, distinguishing the three error shapes the
source produces via distinct `fmt.Errorf` messages. -/
inductive ResolveOutcome
  | ok (name : String)
  | notFound
  | ambiguous (candidates : List String)
deriving DecidableEq

/-- tmuxmcp `resolveSession`: explicit name must appear in the list;
otherwise filter by prefix (falling back to `detectPrefix`, modelled by
the `defaultPfx` parameter) and demand exactly one match. -/
def resolveSessionModel (backendResp : Option String) (defaultPfx pfx session : String) :
    ResolveOutcome :=
  if session ≠ "" then
    if session ∈ listSessions backendResp "" then .ok session else .notFound
  else
    let p := if pfx = "" then defaultPfx else pfx
    match findSessionsByPrefixModel backendResp p with
    | [] => .notFound
    | [s] => .ok s
    | ss => .ambiguous ss

/-! ## SessionFactory: the in-process registry and `createUnique`

`newSession` (tmux_command.go) holds a mutex for its whole body, so the
registry operations of concurrent calls are serialized; the model threads
the registry state through a sequence of calls. -/

/-- tmux_command.go `newSession`: under the mutex, reject a name already
in the in-process registry, otherwise attempt the backend creation
(outcome given by the oracle `backendOk`) and record the name on success.
Returns whether the call succeeded and the updated registry. -/
def newSessionModel (reg : List String) (name : String) (backendOk : Bool) :
    Bool × List String :=
  if name ∈ reg then (false, reg)
  else if backendOk then (true, name :: reg)
  else (false, reg)

/-- A sequence of `newSession` calls (serialized by the mutex), returning
the per-call (name, succeeded) results and the final registry. -/
def runNewSessions (reg : List String) : List (String × Bool) → List (String × Bool) × List String
  | [] => ([], reg)
  | (name, ok) :: rest =>
    let r := newSessionModel reg name ok
    let rec2 := runNewSessions r.2 rest
    ((name, r.1) :: rec2.1, rec2.2)

/-- The names handed out by the successful calls of a run. -/
def successNames (reg : List String) (calls : List (String × Bool)) : List String :=
  ((runNewSessions reg calls).1.filter (fun r => r.2)).map (fun r => r.1)

/-- part_013 `createUniqueSessionWithEnv` retry loop: up to `fuel`
attempts; attempt `i` draws suffix `suffixes i % 9000 + 1000` and calls
`newSession`. Returns (created name if any, number of attempts made,
final registry). -/
def createUniqueLoop13 (baseName : String) (suffixes : Nat → Nat) (backendOk : Nat → Bool)
    (reg : List String) : Nat → Nat → Option String × Nat × List String
  | _, 0 => (none, 0, reg)
  | i, fuel + 1 =>
    let name := baseName ++ "-" ++ toString (suffixes i % 9000 + 1000)
    let r := newSessionModel reg name (backendOk i)
    if r.1 then (some name, 1, r.2)
    else
      let rec2 := createUniqueLoop13 baseName suffixes backendOk r.2 (i + 1) fuel
      (rec2.1, rec2.2.1 + 1, rec2.2.2)

/-- part_013 `createUniqueSessionWithEnv`: 100-attempt loop; exhaustion
yields the creation-exhausted error. Also returns the attempt count. -/
def createUnique13 (baseName : String) (suffixes : Nat → Nat) (backendOk : Nat → Bool)
    (reg : List String) : Except String String × Nat :=
  let r := createUniqueLoop13 baseName suffixes backendOk reg 0 100
  match r.1 with
  | some name => (.ok name, r.2.1)
  | none => (.error "failed to create unique session after 100 attempts", r.2.1)

/-- part_014 `createUniqueSession` retry loop: `for i := lo; i < bound; i++`
with a direct backend call per attempt (no registry in this variant).
Returns (created name if any, number of attempts made). -/
def createUniqueLoop14 (baseName : String) (backendOk : Nat → Bool) (bound : Nat) :
    Nat → Nat → Option String × Nat
  | 0, _ => (none, 0)
  | fuel + 1, i =>
    if i < bound then
      let name := baseName ++ "-" ++ toString i
      if backendOk i then (some name, 1)
      else
        let r := createUniqueLoop14 baseName backendOk bound fuel (i + 1)
        (r.1, r.2 + 1)
    else (none, 0)

/-- part_014 `createUniqueSession`: loop from `maxNumber+1` while
`i < maxNumber+100`, then the same creation-exhausted error text.
The fuel value 100 exceeds the 99 iterations the guard admits, so the
fuel never cuts the loop short. -/
def createUnique14 (baseName : String) (maxNumber : Nat) (backendOk : Nat → Bool) :
    Except String String × Nat :=
  let r := createUniqueLoop14 baseName backendOk (maxNumber + 100) 100 (maxNumber + 1)
  match r.1 with
  | some name => (.ok name, r.2)
  | none => (.error "failed to create unique session after 100 attempts", r.2)

/-! ## Waiters

Each poll tick of a waiter is one firing of the 200 ms ticker together
with the backend response to the capture issued on that tick (`none` when
the capture failed and the source skips to the next tick). Times are in
milliseconds; the loop records `lastChange := time.Now()` on entry, which
is the `start` parameter. The list of ticks is the finite prefix of the
ticker observed before the context is cancelled (or before the
`time.After` deadline fires, for the older variants); the model then
processes the source code of the cancellation branch, whose fresh final
capture is the `finalResp` parameter. -/

def stabilityThresholdMs : Nat := 500

def noOutputTimeoutMs : Nat := 20000

/-- A call issued to the tmux backend, recorded in execution traces so
that theorems can state which mutating calls were (not) issued. -/
inductive TmuxCall
  | capturePane (session : String)
  | captureCursor (session : String)
  | sendKeys (session keys : String)
  | sendEnter (session : String)
  | killSession (session : String)
deriving DecidableEq

/-- One ticker firing seen by `waitForStability`. -/
structure StabTick where
  time : Nat
  resp : Option String
deriving DecidableEq

/-- Waiter loop state: the last seen formatted output and the time of the
last observed change. -/
structure WaitState where
  lastOutput : String
  lastChange : Nat
deriving DecidableEq

/-- Result of one `waitForStability` ticker iteration. -/
inductive StabStep
  | cont (s : WaitState)
  | stable (r : CaptureRes) (t : Nat)
deriving DecidableEq

/-- The body of the tmuxmcp `waitForStability` ticker case (client.go):
skip failed captures; reset the change clock when the formatted output
differs from the last seen one; return the capture once at least the
stability threshold has elapsed since the last change. -/
def stabStep (name : String) (s : WaitState) (tk : StabTick) : StabStep :=
  match tk.resp with
  | none => .cont s
  | some raw =>
    let r := mkCapture name raw
    if r.output ≠ s.lastOutput then .cont ⟨r.output, tk.time⟩
    else if stabilityThresholdMs ≤ tk.time - s.lastChange then .stable r tk.time
    else .cont s

/-- Terminal outcome of `waitForStability`: `stable` from the ticker
branch; `degraded` from the cancellation/deadline branch when its fresh
capture succeeds (returned with a nil error in the source); `cancelled`
when that final capture also fails (returned as a hard error). -/
inductive StabOutcome
  | stable (r : CaptureRes) (t : Nat)
  | degraded (r : CaptureRes)
  | cancelled
deriving DecidableEq

/-- The tmuxmcp `waitForStability` loop over a tick trace, ending in the
cancellation branch (which issues one fresh capture, `finalResp`) if no
tick returned first. -/
def stabGo (name : String) (s : WaitState) : List StabTick → Option String → StabOutcome
  | [], finalResp =>
    match finalResp with
    | some raw => .degraded (mkCapture name raw)
    | none => .cancelled
  | tk :: rest, finalResp =>
    match stabStep name s tk with
    | .cont s2 => stabGo name s2 rest finalResp
    | .stable r t => .stable r t

/-- tmuxmcp `waitForStability`: loop entry sets lastOutput to the empty
string and lastChange to the entry time. -/
def waitForStabilityRun (name : String) (start : Nat) (ticks : List StabTick)
    (finalResp : Option String) : StabOutcome :=
  stabGo name ⟨"", start⟩ ticks finalResp

/-- One ticker firing seen by the tmuxmcp `waitForExpected`: the response
to `captureWithCursor`, i.e. raw text plus cursor row and column. -/
structure ExpTick where
  time : Nat
  resp : Option (String × Int × Int)
deriving DecidableEq

/-- Terminal outcome of `waitForExpected`: `matched` (nil error in the
source), `stalled` (no-output timeout: capture returned with an error),
`cancelled` (context done: error, with the fresh final capture if it
succeeded). -/
inductive ExpOutcome
  | matched (r : CaptureRes) (t : Nat)
  | stalled (r : CaptureRes) (t : Nat)
  | cancelled (r : Option CaptureRes)
deriving DecidableEq

/-- The tmuxmcp `waitForExpected` loop (client.go): on each tick, first
test whether the expected text occurs on the line the cursor occupies —
never anywhere else in the capture; otherwise run the no-output stall
clock on the formatted output. Also returns the trace of backend calls
the loop issued (one cursor capture per tick, one plain capture in the
cancellation branch). -/
def expectGo (name expected : String) (s : WaitState) :
    List ExpTick → Option String → ExpOutcome × List TmuxCall
  | [], finalResp => (.cancelled (finalResp.map (mkCapture name)), [.capturePane name])
  | tk :: rest, finalResp =>
    match tk.resp with
    | none =>
      let r := expectGo name expected s rest finalResp
      (r.1, .captureCursor name :: r.2)
    | some (raw, y, _x) =>
      if containsSubstr (cursorLineOf raw y) expected then
        (.matched (mkCapture name raw) tk.time, [.captureCursor name])
      else
        let out := formatOutput raw
        if out ≠ s.lastOutput then
          let r := expectGo name expected ⟨out, tk.time⟩ rest finalResp
          (r.1, .captureCursor name :: r.2)
        else if noOutputTimeoutMs ≤ tk.time - s.lastChange then
          (.stalled (mkCapture name raw) tk.time, [.captureCursor name])
        else
          let r := expectGo name expected s rest finalResp
          (r.1, .captureCursor name :: r.2)

/-- tmuxmcp `waitForExpected` outcome. -/
def waitForExpectedRun (name expected : String) (start : Nat) (ticks : List ExpTick)
    (finalResp : Option String) : ExpOutcome :=
  (expectGo name expected ⟨"", start⟩ ticks finalResp).1

/-- The older `tmux` package `Client.waitForExpected` loop (client.go):
it captures without cursor information and tests whether the expected
text occurs anywhere in the formatted output of the whole capture. -/
def Client.expectGo (name expected : String) (s : WaitState) :
    List StabTick → Option String → ExpOutcome
  | [], finalResp => .cancelled (finalResp.map (Client.mkCapture name))
  | tk :: rest, finalResp =>
    match tk.resp with
    | none => Client.expectGo name expected s rest finalResp
    | some raw =>
      let r := Client.mkCapture name raw
      if containsSubstr r.output expected then .matched r tk.time
      else if r.output ≠ s.lastOutput then
        Client.expectGo name expected ⟨r.output, tk.time⟩ rest finalResp
      else if noOutputTimeoutMs ≤ tk.time - s.lastChange then .stalled r tk.time
      else Client.expectGo name expected s rest finalResp

/-- Older `Client.waitForExpected` outcome over a tick trace. -/
def Client.waitForExpectedRun (name expected : String) (start : Nat) (ticks : List StabTick)
    (finalResp : Option String) : ExpOutcome :=
  Client.expectGo name expected ⟨"", start⟩ ticks finalResp

/-! ## Action executors: `sendKeysCommon` and `KillTool.Handle`

Each executor owns one SafetyGate check: it performs a fresh capture of
its own (never reusing one from an earlier call), compares the fingerprint
of that capture with the caller-supplied one, and refuses to issue the
mutating backend call on mismatch. -/

/-- tmuxmcp `SendKeysOptions` (send_keys_common.go). MaxWait only scales
the context deadline, which the tick-trace model represents by the trace
length, so it is omitted here. -/
structure SendOpts where
  sessionName : String
  hashArg : String
  keys : String
  enter : Bool
  expect : String
deriving DecidableEq

/-- The backend responses one `sendKeysCommon` call can consume: the
response to its own verification capture, the outcomes of the mutating
send-keys calls, and the waiter trace used only when `expect` is set. -/
structure SendEnv where
  verifyCapture : Option String
  sendOk : Bool
  enterOk : Bool
  expectStart : Nat
  expectTicks : List ExpTick
  expectFinal : Option String

/-- `SendKeysResult` (send_keys_common.go). -/
structure SendKeysResult where
  sessionName : String
  output : String
  hash : String
deriving DecidableEq

/-- tmuxmcp `sendKeysCommon` (send_keys_common.go): validate arguments,
verify the session hash against a fresh capture (`verifySessionHash`),
send the keys (plus a separate Enter), and then either run
`waitForExpected` (when `expect` is non-empty) or return at once with an
empty Output and an empty Hash. The second component is the trace of
backend calls issued, in order. -/
def sendKeysCommonModel (opts : SendOpts) (env : SendEnv) :
    Except String SendKeysResult × List TmuxCall :=
  if opts.hashArg = "" then
    (.error "hash is required for safety. Please capture the session first with tmux_capture to get the current hash, then use that hash in the send keys tool", [])
  else if opts.keys = "" then
    (.error "keys parameter is required. Specify the keys to send to the session", [])
  else
    match env.verifyCapture with
    | none =>
      (.error ("failed to verify session state: failed to capture session " ++ opts.sessionName),
       [.capturePane opts.sessionName])
    | some raw =>
      if calculateHash raw ≠ opts.hashArg then
        (.error "session state has changed. Please capture current output first and carefully consider whether the sent keys still make sense",
         [.capturePane opts.sessionName])
      else if env.sendOk = false then
        (.error ("failed to send keys to session " ++ opts.sessionName),
         [.capturePane opts.sessionName, .sendKeys opts.sessionName opts.keys])
      else if opts.enter && env.enterOk = false then
        (.error ("failed to send Enter key to session " ++ opts.sessionName),
         [.capturePane opts.sessionName, .sendKeys opts.sessionName opts.keys,
          .sendEnter opts.sessionName])
      else
        let base := [TmuxCall.capturePane opts.sessionName,
                     TmuxCall.sendKeys opts.sessionName opts.keys] ++
          (if opts.enter then [TmuxCall.sendEnter opts.sessionName] else [])
        if opts.expect = "" then
          (.ok ⟨opts.sessionName, "", ""⟩, base)
        else
          let w := expectGo opts.sessionName opts.expect ⟨"", env.expectStart⟩
                     env.expectTicks env.expectFinal
          match w.1 with
          | .matched r _ => (.ok ⟨opts.sessionName, r.output, r.hash⟩, base ++ w.2)
          | .stalled _ _ =>
            (.error ("error sending keys: no new output for 20 seconds while waiting for expected text"),
             base ++ w.2)
          | .cancelled _ =>
            (.error ("error sending keys: context cancelled while waiting for expected text"),
             base ++ w.2)

/-- `KillTool.Handle` (tmux_kill.go): require a hash, resolve the
session (outcome supplied as `resolved`), verify the hash against a fresh
capture of its own, and only then issue kill-session. -/
def killHandleModel (hashArg : String) (resolved : Option String) (capResp : Option String)
    (killOk : Bool) : Except String String × List TmuxCall :=
  if hashArg = "" then
    (.error "hash is required for safety. Please capture the session first with tmux_capture to get the current hash, then use that hash in tmux_kill", [])
  else
    match resolved with
    | none => (.error "session not found", [])
    | some name =>
      match capResp with
      | none =>
        (.error ("failed to verify session state: failed to capture session " ++ name),
         [.capturePane name])
      | some raw =>
        if calculateHash raw ≠ hashArg then
          (.error ("session state has changed. Expected hash " ++ hashArg ++ ", got " ++
            calculateHash raw ++
            ". Please capture current output first and carefully consider whether you still want to kill this session."),
           [.capturePane name])
        else if killOk then
          (.ok ("Session " ++ name ++ " killed successfully."),
           [.capturePane name, .killSession name])
        else
          (.error ("failed to kill session " ++ name), [.capturePane name, .killSession name])

/-! ## Auxiliary predicates and lemmas -/

/-- Hex digit test: a decimal digit or one of the letters a through f. -/
def isHexChar (c : Char) : Bool :=
  (48 ≤ c.toNat && c.toNat ≤ 57) || (97 ≤ c.toNat && c.toNat ≤ 102)

theorem hexDigitChar_hex (n : Nat) : isHexChar (hexDigitChar (n % 16)) = true := by
  have h : n % 16 < 16 := Nat.mod_lt _ (by norm_num)
  have hall : ∀ m, m < 16 → isHexChar (hexDigitChar m) = true := by decide
  exact hall _ h

/-- Two raw captures that agree line for line except possibly on
whitespace-only lines (both lines blank at each divergence). -/
def blankOnlyDiffL : List String → List String → Bool
  | [], [] => true
  | ln1 :: t1, ln2 :: t2 =>
    (ln1 == ln2 || (trimSpace ln1 == "" && trimSpace ln2 == "")) && blankOnlyDiffL t1 t2
  | _, _ => false

def blankOnlyDiff (r1 r2 : String) : Bool :=
  blankOnlyDiffL (splitLines r1) (splitLines r2)

theorem formatLines_congr (marker : String) :
    ∀ (l1 l2 : List String) (num cnt : Nat), blankOnlyDiffL l1 l2 = true →
      formatLines marker num cnt l1 = formatLines marker num cnt l2 := by
  intro l1
  induction l1 with
  | nil =>
    intro l2 num cnt h
    cases l2 with
    | nil => rfl
    | cons b bs => simp [blankOnlyDiffL] at h
  | cons a as ih =>
    intro l2 num cnt h
    cases l2 with
    | nil => simp [blankOnlyDiffL] at h
    | cons b bs =>
      rw [blankOnlyDiffL, Bool.and_eq_true, Bool.or_eq_true, Bool.and_eq_true] at h
      obtain ⟨hhead, htail⟩ := h
      rcases hhead with hab | ⟨ha, hb⟩
      · have hab2 : a = b := by
          exact eq_of_beq hab
        subst hab2
        by_cases htr : trimSpace a = ""
        · simp [formatLines, htr, ih bs (num + 1) (cnt + 1) htail]
        · simp [formatLines, htr, ih bs (num + 1) 0 htail]
      · have ha2 : trimSpace a = "" := eq_of_beq ha
        have hb2 : trimSpace b = "" := eq_of_beq hb
        simp [formatLines, ha2, hb2, ih bs (num + 1) (cnt + 1) htail]

theorem formatOutput_congr (r1 r2 : String) (h : blankOnlyDiff r1 r2 = true) :
    formatOutput r1 = formatOutput r2 := by
  unfold formatOutput
  rw [formatLines_congr "empty testLines" (splitLines r1) (splitLines r2) 1 0 h]

/-! ## Claim C2: the fingerprint function -/

/-- Claim C2 (amended): the current `calculateHash` is a pure 8-hex-char
truncation of the SHA-256 of the exact bytes with no normalization, and
the older `Client.calculateHash` agrees with it on every input with any
non-whitespace content — but normalizes whitespace-only content to the
constant "empty". -/
theorem c2_fingerprint_shape (s : String) :
    (calculateHash s).length = 8 ∧
    (∀ c ∈ (calculateHash s).toList, isHexChar c = true) ∧
    (trimSpace s ≠ "" → Client.calculateHash s = calculateHash s) ∧
    (trimSpace s = "" → Client.calculateHash s = "empty") := by
  refine ⟨rfl, ?_, ?_, ?_⟩
  · intro c hc
    have hlist : (calculateHash s).toList = (sha256HexChars s).take 8 := rfl
    rw [hlist] at hc
    have hc2 := List.mem_of_mem_take hc
    rw [sha256HexChars] at hc2
    rw [List.mem_flatten] at hc2
    obtain ⟨l, hl, hcl⟩ := hc2
    rw [List.mem_map] at hl
    obtain ⟨w, _hw, hlw⟩ := hl
    subst hlw
    simp only [hexWord32, List.mem_cons, List.not_mem_nil, or_false] at hcl
    rcases hcl with h | h | h | h | h | h | h | h <;> subst h <;> apply hexDigitChar_hex
  · intro h
    simp [Client.calculateHash, h]
  · intro h
    simp [Client.calculateHash, h]

/-- Claim C2 counterexample: the older `Client.calculateHash` (one of the
two cited fingerprint functions) normalizes whitespace-only captures: the
byte-distinct inputs " " and a newline share the fingerprint "empty",
which is not a truncated hash collision — the current free function
distinguishes them. -/
theorem c2_counterexample :
    (" " ≠ "\n") ∧
    Client.calculateHash " " = "empty" ∧
    Client.calculateHash "\n" = "empty" ∧
    Client.calculateHash " " = Client.calculateHash "\n" ∧
    calculateHash " " ≠ calculateHash "\n" := by decide

/-- Claim C2 witness: the amended theorem evaluated at a concrete input. -/
theorem c2_witness :
    (calculateHash "abc").length = 8 ∧
    (trimSpace "abc" ≠ "") ∧
    Client.calculateHash "abc" = calculateHash "abc" :=
  ⟨(c2_fingerprint_shape "abc").1, by decide,
   (c2_fingerprint_shape "abc").2.2.1 (by decide)⟩

/-! ## Claim C5: deadline and cancellation outcomes -/

theorem stabGo_final_some (name : String) :
    ∀ (ticks : List StabTick) (s : WaitState) (raw : String) (r : CaptureRes),
      stabGo name s ticks (some raw) = .degraded r → r = mkCapture name raw := by
  intro ticks
  induction ticks with
  | nil =>
    intro s raw r h
    simp only [stabGo] at h
    exact (StabOutcome.degraded.injEq _ _).mp h.symm
  | cons tk rest ih =>
    intro s raw r h
    simp only [stabGo] at h
    cases hstep : stabStep name s tk with
    | cont s2 => rw [hstep] at h; exact ih s2 raw r h
    | stable r2 t2 => rw [hstep] at h; simp at h

theorem stabGo_final_none (name : String) :
    ∀ (ticks : List StabTick) (s : WaitState) (r : CaptureRes),
      stabGo name s ticks none ≠ .degraded r := by
  intro ticks
  induction ticks with
  | nil =>
    intro s r h
    simp [stabGo] at h
  | cons tk rest ih =>
    intro s r h
    simp only [stabGo] at h
    cases hstep : stabStep name s tk with
    | cont s2 => rw [hstep] at h; exact ih s2 r h
    | stable r2 t2 => rw [hstep] at h; simp at h

/-- Claim C5 (amended): when the `waitForStability` loop ends by
deadline/cancellation rather than by stability, the source performs one
final fresh capture: if that capture succeeds, its snapshot — not the most
recent poll snapshot — is returned as a degraded success; if that final
capture fails, the waiter returns a hard error carrying no snapshot, and
no degraded result is produced at all. -/
theorem c5_cancel_fresh_capture (name : String) (start : Nat) (ticks : List StabTick) :
    (∀ raw r, waitForStabilityRun name start ticks (some raw) = .degraded r →
      r = mkCapture name raw) ∧
    (∀ r, waitForStabilityRun name start ticks none ≠ .degraded r) := by
  constructor
  · intro raw r h
    exact stabGo_final_some name ticks ⟨"", start⟩ raw r h
  · intro r h
    exact stabGo_final_none name ticks ⟨"", start⟩ r h

/-- Claim C5 counterexample: a run with a successful poll capture (so a
"most recent successful capture" exists) whose cancellation-time fresh
capture fails returns the bare cancelled error — the poll snapshot is not
returned, contradicting the claim that cancellation always yields the
last good snapshot. -/
theorem c5_counterexample :
    waitForStabilityRun "s" 0 [⟨200, some "x\n"⟩] none = .cancelled ∧
    (StabOutcome.cancelled ≠ .degraded (mkCapture "s" "x\n")) := by decide

/-- Claim C5 witness: the amended theorem applied at a concrete run. -/
theorem c5_witness :
    mkCapture "s" "b\n" = mkCapture "s" "b\n" ∧
    waitForStabilityRun "s" 0 [⟨200, some "a\n"⟩] none ≠
      .degraded (mkCapture "s" "a\n") :=
  ⟨(c5_cancel_fresh_capture "s" 0 [⟨200, some "a\n"⟩]).1 "b\n" (mkCapture "s" "b\n")
     (by decide),
   (c5_cancel_fresh_capture "s" 0 [⟨200, some "a\n"⟩]).2 (mkCapture "s" "a\n")⟩

/-! ## Claim C6: in-process uniqueness of created session names -/

theorem successNames_cons (reg : List String) (n : String) (ok : Bool)
    (rest : List (String × Bool)) :
    successNames reg ((n, ok) :: rest) =
      (if (newSessionModel reg n ok).1 then [n] else []) ++
        successNames (newSessionModel reg n ok).2 rest := by
  simp only [successNames, runNewSessions]
  cases h : (newSessionModel reg n ok).1 <;> simp [List.filter, h]

theorem mem_reg_not_mem_successNames :
    ∀ (calls : List (String × Bool)) (reg : List String) (m : String),
      m ∈ reg → m ∉ successNames reg calls := by
  intro calls
  induction calls with
  | nil => intro reg m _hm; simp [successNames, runNewSessions]
  | cons c rest ih =>
    intro reg m hm
    obtain ⟨n, ok⟩ := c
    rw [successNames_cons]
    by_cases hmem : n ∈ reg
    · have hmodel : newSessionModel reg n ok = (false, reg) := by
        simp [newSessionModel, hmem]
      rw [hmodel]
      simpa using ih reg m hm
    · cases ok with
      | false =>
        have hmodel : newSessionModel reg n false = (false, reg) := by
          simp [newSessionModel, hmem]
        rw [hmodel]
        simpa using ih reg m hm
      | true =>
        have hmodel : newSessionModel reg n true = (true, n :: reg) := by
          simp [newSessionModel, hmem]
        rw [hmodel]
        intro hcontra
        simp only [List.mem_append, List.mem_cons] at hcontra
        rcases hcontra with h | h
        · simp at h
          subst h
          exact hmem hm
        · exact ih (n :: reg) m (List.mem_cons_of_mem n hm) h

theorem successNames_pairwise :
    ∀ (calls : List (String × Bool)) (reg : List String),
      List.Pairwise (fun a b => a ≠ b) (successNames reg calls) := by
  intro calls
  induction calls with
  | nil => intro reg; simp [successNames, runNewSessions]
  | cons c rest ih =>
    intro reg
    obtain ⟨n, ok⟩ := c
    rw [successNames_cons]
    cases hb : (newSessionModel reg n ok).1 with
    | false => simpa using ih (newSessionModel reg n ok).2
    | true =>
      simp only [if_pos rfl, List.singleton_append, List.pairwise_cons]
      constructor
      · intro b hb2
        intro heq
        subst heq
        have hnin : n ∈ (newSessionModel reg n ok).2 := by
          by_cases hmem : n ∈ reg
          · simp [newSessionModel, hmem] at hb
          · cases ok with
            | false => simp [newSessionModel, hmem] at hb
            | true => simp [newSessionModel, hmem]
        exact mem_reg_not_mem_successNames rest _ n hnin hb2
      · exact ih (newSessionModel reg n ok).2

/-- Claim C6: `newSession` checks the mutex-guarded in-process registry
before the backend call and records the name only on success, so any two
successful creation calls in one process return distinct names, whatever
the backend does. -/
theorem c6_created_names_unique (reg : List String) (calls : List (String × Bool))
    (name : String) (ok : Bool) :
    (name ∈ reg → newSessionModel reg name ok = (false, reg)) ∧
    (name ∉ reg → ok = true → newSessionModel reg name ok = (true, name :: reg)) ∧
    List.Pairwise (fun a b => a ≠ b) (successNames reg calls) := by
  refine ⟨?_, ?_, successNames_pairwise calls reg⟩
  · intro h
    simp [newSessionModel, h]
  · intro h hok
    subst hok
    simp [newSessionModel, h]

/-- Claim C6 witness: the theorem applied at concrete registry states. -/
theorem c6_witness :
    newSessionModel ["a"] "a" true = (false, ["a"]) ∧
    newSessionModel ["a"] "b" true = (true, ["b", "a"]) ∧
    List.Pairwise (fun a b => a ≠ b) (successNames [] [("x", true), ("x", true), ("y", true)]) :=
  ⟨(c6_created_names_unique ["a"] [] "a" true).1 (by decide),
   (c6_created_names_unique ["a"] [] "b" true).2.1 (by decide) rfl,
   (c6_created_names_unique [] [("x", true), ("x", true), ("y", true)] "a" true).2.2⟩

/-! ## Claim C7: the createUnique retry bound -/

instance : DecidableEq (Except String String) := fun a b =>
  match a, b with
  | .ok x, .ok y => if h : x = y then .isTrue (by rw [h]) else .isFalse (by simp [h])
  | .error x, .error y => if h : x = y then .isTrue (by rw [h]) else .isFalse (by simp [h])
  | .ok _, .error _ => .isFalse (by simp)
  | .error _, .ok _ => .isFalse (by simp)

/-- Claim C7 (code bug in part_014): with every backend attempt rejected,
the part_013 variant makes exactly 100 attempts before reporting the
creation-exhausted error, but the part_014 variant makes only 99 attempts
(its loop runs `i` from `maxNumber+1` while `i < maxNumber+100`) while
its error message still claims 100 attempts — contradicting its own
comment and error text. -/
theorem c7_attempt_bound :
    (createUnique13 "proj-session" (fun i => i) (fun _ => false) []).2 = 100 ∧
    (createUnique13 "proj-session" (fun i => i) (fun _ => false) []).1 =
      .error "failed to create unique session after 100 attempts" ∧
    (createUnique14 "proj-session" 0 (fun _ => false)).2 = 99 ∧
    (createUnique14 "proj-session" 0 (fun _ => false)).1 =
      .error "failed to create unique session after 100 attempts" := by decide

/-! ## Claim C8: session resolution -/

/-- Claim C8: an explicit name resolves iff it appears in the backend
list (else NotFound); a prefix-only query resolves the unique prefix
match, returns NotFound on zero matches and the Ambiguous error listing
all candidates on two or more — never picking one of them; and a failed
backend list query behaves as an empty list. -/
theorem c8_session_resolution (backendResp : Option String) (defaultPfx pfx session : String) :
    (listSessions none pfx = []) ∧
    (session ≠ "" →
      ((resolveSessionModel backendResp defaultPfx pfx session = .ok session ↔
          session ∈ listSessions backendResp "") ∧
        (resolveSessionModel backendResp defaultPfx pfx session = .notFound ↔
          session ∉ listSessions backendResp ""))) ∧
    (session = "" →
      (findSessionsByPrefixModel backendResp (if pfx = "" then defaultPfx else pfx) = [] →
        resolveSessionModel backendResp defaultPfx pfx session = .notFound) ∧
      (∀ s, findSessionsByPrefixModel backendResp (if pfx = "" then defaultPfx else pfx) = [s] →
        resolveSessionModel backendResp defaultPfx pfx session = .ok s) ∧
      (2 ≤ (findSessionsByPrefixModel backendResp (if pfx = "" then defaultPfx else pfx)).length →
        resolveSessionModel backendResp defaultPfx pfx session =
          .ambiguous (findSessionsByPrefixModel backendResp (if pfx = "" then defaultPfx else pfx)) ∧
        ∀ name, resolveSessionModel backendResp defaultPfx pfx session ≠ .ok name)) := by
  refine ⟨?_, ?_, ?_⟩
  · cases hp : decide (pfx = "") <;> simp [listSessions]
  · intro hs
    rw [resolveSessionModel, if_pos hs]
    by_cases hmem : session ∈ listSessions backendResp ""
    · simp [hmem]
    · simp [hmem]
  · intro hs
    subst hs
    rw [resolveSessionModel]
    simp only [ne_eq, not_true_eq_false, if_false]
    cases hm : findSessionsByPrefixModel backendResp (if pfx = "" then defaultPfx else pfx) with
    | nil => simp
    | cons s1 tail =>
      cases tail with
      | nil => simp
      | cons s2 rest =>
        exact ⟨fun h => absurd h (by simp), fun s h => absurd h (by simp),
          fun _ => ⟨rfl, fun name h => ResolveOutcome.noConfusion h⟩⟩

/-! ## Claims C1 and C10: the SafetyGate on mutating actions and the
no-expect fast path of sendKeysCommon -/

/-- Claim C1: for both mutating actions, when the fingerprint of the
fresh verification capture (performed by this very call, first in its
backend-call trace) differs from the caller-supplied one, the action
returns the mismatch error and its trace contains no send-keys and no
kill-session call. -/
theorem c1_gate_blocks_mutation (opts : SendOpts) (env : SendEnv)
    (khash kname kraw raw : String) (kOk : Bool)
    (h1 : opts.hashArg ≠ "") (h2 : opts.keys ≠ "")
    (hcap : env.verifyCapture = some raw)
    (hmis : calculateHash raw ≠ opts.hashArg)
    (hk1 : khash ≠ "")
    (hkmis : calculateHash kraw ≠ khash) :
    sendKeysCommonModel opts env =
      (.error "session state has changed. Please capture current output first and carefully consider whether the sent keys still make sense",
       [.capturePane opts.sessionName]) ∧
    killHandleModel khash (some kname) (some kraw) kOk =
      (.error ("session state has changed. Expected hash " ++ khash ++ ", got " ++
        calculateHash kraw ++
        ". Please capture current output first and carefully consider whether you still want to kill this session."),
       [.capturePane kname]) := by
  constructor
  · simp [sendKeysCommonModel, h1, h2, hcap, hmis]
  · simp [killHandleModel, hk1, hkmis]

/-- Claim C1 witness: the gate theorem applied to a concrete mismatch. -/
theorem c1_witness :
    (sendKeysCommonModel ⟨"s", "deadbeef", "ls", false, ""⟩
        ⟨some "x\n", true, true, 0, [], none⟩).2 = [.capturePane "s"] ∧
    (killHandleModel "deadbeef" (some "s") (some "x\n") true).2 = [.capturePane "s"] := by
  have h := c1_gate_blocks_mutation ⟨"s", "deadbeef", "ls", false, ""⟩
    ⟨some "x\n", true, true, 0, [], none⟩ "deadbeef" "s" "x\n" "x\n" true
    (by decide) (by decide) rfl (by decide) (by decide) (by decide)
  exact ⟨by rw [h.1], by rw [h.2]⟩

/-- Claim C10: with the gate passing and the keys sent, an empty
`expect` makes `sendKeysCommon` return immediately — no waiter runs, no
capture is issued after the send, and the result carries an empty Output
and an empty Hash; a non-empty `expect` runs the waiter and, on match,
returns its snapshot with the fresh hash. -/
theorem c10_no_expect_no_wait (opts : SendOpts) (env : SendEnv) (raw : String)
    (h1 : opts.hashArg ≠ "") (h2 : opts.keys ≠ "")
    (hcap : env.verifyCapture = some raw)
    (hok : calculateHash raw = opts.hashArg)
    (hsend : env.sendOk = true) (henter : env.enterOk = true) :
    (opts.expect = "" →
      sendKeysCommonModel opts env =
        (.ok ⟨opts.sessionName, "", ""⟩,
         [TmuxCall.capturePane opts.sessionName, TmuxCall.sendKeys opts.sessionName opts.keys] ++
           (if opts.enter then [TmuxCall.sendEnter opts.sessionName] else []))) ∧
    (opts.expect ≠ "" → ∀ r t,
      (expectGo opts.sessionName opts.expect ⟨"", env.expectStart⟩
        env.expectTicks env.expectFinal).1 = .matched r t →
      (sendKeysCommonModel opts env).1 = .ok ⟨opts.sessionName, r.output, r.hash⟩) := by
  constructor
  · intro hexp
    simp [sendKeysCommonModel, h1, h2, hcap, hok, hsend, henter, hexp]
  · intro hexp r t hw
    simp [sendKeysCommonModel, h1, h2, hcap, hok, hsend, henter, hexp, hw]

/-- Claim C10 witness: the theorem applied at a concrete gate-passing
call with no expect string. -/
theorem c10_witness :
    sendKeysCommonModel ⟨"s", calculateHash "x\n", "ls", false, ""⟩
        ⟨some "x\n", true, true, 0, [], none⟩ =
      (.ok ⟨"s", "", ""⟩, [TmuxCall.capturePane "s", TmuxCall.sendKeys "s" "ls"]) := by
  have h := (c10_no_expect_no_wait ⟨"s", calculateHash "x\n", "ls", false, ""⟩
    ⟨some "x\n", true, true, 0, [], none⟩ "x\n"
    (by decide) (by decide) rfl rfl rfl rfl).1 rfl
  exact h

/-- Claim C8 witness: resolution applied at concrete backend lists. -/
theorem c8_witness :
    resolveSessionModel (some "alpha\nbeta\n") "tmux" "" "alpha" = .ok "alpha" ∧
    resolveSessionModel (some "ab1\nab2\n") "tmux" "ab" "" ≠ .ok "ab1" ∧
    listSessions none "x" = [] :=
  ⟨((c8_session_resolution (some "alpha\nbeta\n") "tmux" "" "alpha").2.1
      (by decide)).1.mpr (by decide),
   (((c8_session_resolution (some "ab1\nab2\n") "tmux" "ab" "").2.2 rfl).2.2
      (by decide)).2 "ab1",
   (c8_session_resolution none "tmux" "x" "y").1⟩

/-! ## Claim C3: cursor-line scoping of the ExpectationWaiter -/

theorem expectGo_no_scrollback_match (name expected : String) :
    ∀ (ticks : List ExpTick) (s : WaitState) (finalResp : Option String),
      (∀ tk ∈ ticks, ∀ raw y x, tk.resp = some (raw, y, x) →
        containsSubstr (cursorLineOf raw y) expected = false) →
      ∀ r t, (expectGo name expected s ticks finalResp).1 ≠ .matched r t := by
  intro ticks
  induction ticks with
  | nil =>
    intro s finalResp _hno r t h
    simp [expectGo] at h
  | cons tk rest ih =>
    intro s finalResp hno r t h
    have htail : ∀ u ∈ rest, ∀ raw y x, u.resp = some (raw, y, x) →
        containsSubstr (cursorLineOf raw y) expected = false :=
      fun u hu => hno u (by simp [hu])
    rcases hresp : tk.resp with _ | ⟨raw, y, x⟩
    · simp only [expectGo, hresp] at h
      exact ih s finalResp htail r t h
    · have hhead := hno tk (by simp) raw y x hresp
      simp only [expectGo, hresp, hhead, Bool.false_eq_true, if_false] at h
      split at h
      · exact ih _ finalResp htail r t h
      · split at h
        · simp at h
        · exact ih s finalResp htail r t h

/-- Claim C3 (amended): the current (tmuxmcp) `waitForExpected` matches
only against the line the cursor occupies: when no tick's cursor line
contains the target, the waiter never reports Matched, regardless of the
target appearing anywhere in the scrollback. (The older
`Client.waitForExpected` instead matches against the whole formatted
capture — see the counterexample.) -/
theorem c3_cursor_scoped_match (name expected : String) (start : Nat)
    (ticks : List ExpTick) (finalResp : Option String)
    (hno : ∀ tk ∈ ticks, ∀ raw y x, tk.resp = some (raw, y, x) →
      containsSubstr (cursorLineOf raw y) expected = false) :
    ∀ r t, waitForExpectedRun name expected start ticks finalResp ≠ .matched r t :=
  fun r t => expectGo_no_scrollback_match name expected ticks ⟨"", start⟩ finalResp hno r t

/-- Claim C3 counterexample: the older `Client.waitForExpected` (one of
the two cited waiter variants) reports Matched for a target that occurs
only in scrollback: the capture has the cursor on its last line "$ "
(index 2), which does not contain "hello", yet the first tick Matches
because "hello" occurs in the formatted output. -/
theorem c3_counterexample :
    Client.waitForExpectedRun "s" "hello" 0 [⟨200, some "hello\nworld\n$ "⟩] none =
      .matched (Client.mkCapture "s" "hello\nworld\n$ ") 200 ∧
    containsSubstr (cursorLineOf "hello\nworld\n$ " 2) "hello" = false ∧
    containsSubstr "hello\nworld\n$ " "hello" = true := by decide

/-- Claim C3 witness: the amended theorem applied to a concrete run whose
scrollback contains the target but whose cursor line never does. -/
theorem c3_witness :
    containsSubstr "hello\nworld\n$ " "hello" = true ∧
    containsSubstr (cursorLineOf "hello\nworld\n$ " 2) "hello" = false ∧
    waitForExpectedRun "s" "hello" 0 [⟨200, some ("hello\nworld\n$ ", 2, 0)⟩] none ≠
      .matched (mkCapture "s" "hello\nworld\n$ ") 200 :=
  ⟨by decide, by decide,
   c3_cursor_scoped_match "s" "hello" 0 [⟨200, some ("hello\nworld\n$ ", 2, 0)⟩] none
     (by
       intro tk htk raw y x hre
       simp only [List.mem_singleton] at htk
       subst htk
       simp only [Option.some.injEq, Prod.mk.injEq] at hre
       obtain ⟨h1, h2, _h3⟩ := hre
       subst h1
       subst h2
       decide)
     (mkCapture "s" "hello\nworld\n$ ") 200⟩

/-! ## Claim C9: hash from raw bytes, change detection on formatted text -/

/-- Claim C9: a capture's Hash is the fingerprint of the raw captured
text while its Output is the formatted text; the stability waiter's
change detection compares the formatted Output (an unchanged formatted
output never resets the change clock), and raw captures that differ only
within whitespace-only lines format identically while their fingerprints
differ — exhibited on concrete inputs. -/
theorem c9_waiters_compare_formatted (name raw r1 r2 : String) (s : WaitState) (tk : StabTick) :
    ((mkCapture name raw).hash = calculateHash raw ∧
      (mkCapture name raw).output = formatOutput raw) ∧
    (blankOnlyDiff r1 r2 = true → formatOutput r1 = formatOutput r2) ∧
    (tk.resp = some raw → formatOutput raw = s.lastOutput →
      stabStep name s tk = .cont s ∨
        stabStep name s tk = .stable (mkCapture name raw) tk.time) ∧
    (blankOnlyDiff "a\n\n\n" "a\n \n\n" = true ∧ "a\n\n\n" ≠ "a\n \n\n" ∧
      calculateHash "a\n\n\n" ≠ calculateHash "a\n \n\n") := by
  refine ⟨⟨rfl, rfl⟩, formatOutput_congr r1 r2, ?_, by decide⟩
  intro hresp heq
  simp only [stabStep, hresp]
  rw [if_neg (by simp [mkCapture, heq])]
  by_cases h5 : stabilityThresholdMs ≤ tk.time - s.lastChange
  · right
    rw [if_pos h5]
  · left
    rw [if_neg h5]

/-- Claim C9 witness: the theorem applied at the concrete blank-line pair. -/
theorem c9_witness :
    formatOutput "a\n\n\n" = formatOutput "a\n \n\n" ∧
    calculateHash "a\n\n\n" ≠ calculateHash "a\n \n\n" :=
  ⟨(c9_waiters_compare_formatted "s" "" "a\n\n\n" "a\n \n\n" ⟨"", 0⟩ ⟨0, none⟩).2.1
     (by decide),
   (c9_waiters_compare_formatted "s" "" "a\n\n\n" "a\n \n\n" ⟨"", 0⟩ ⟨0, none⟩).2.2.2.2.2⟩

/-! ## Claim C4: the stability debounce -/

theorem stabGo_stable_window (name : String) :
    ∀ (ticks : List StabTick) (s : WaitState) (finalResp : Option String)
      (r : CaptureRes) (T : Nat),
      List.Pairwise (fun a b => a.time < b.time) ticks →
      (∀ tk ∈ ticks, s.lastChange < tk.time) →
      stabGo name s ticks finalResp = .stable r T →
      ∃ t0, (t0 = s.lastChange ∧ r.output = s.lastOutput ∨ ∃ u ∈ ticks, u.time = t0) ∧
        t0 + stabilityThresholdMs ≤ T ∧
        ∀ tk ∈ ticks, ∀ raw, tk.resp = some raw → t0 < tk.time → tk.time ≤ T →
          formatOutput raw = r.output := by
  intro ticks
  induction ticks with
  | nil =>
    intro s finalResp r T _ _ h
    cases finalResp <;> simp [stabGo] at h
  | cons tk rest ih =>
    intro s finalResp r T hpw hgt h
    have hrel := (List.pairwise_cons.mp hpw).1
    have hpw2 := (List.pairwise_cons.mp hpw).2
    have hgthead := hgt tk (by simp)
    have hgttail : ∀ u ∈ rest, s.lastChange < u.time := fun u hu => hgt u (by simp [hu])
    simp only [stabGo] at h
    rcases hresp : tk.resp with _ | raw
    · have hstep : stabStep name s tk = .cont s := by simp [stabStep, hresp]
      rw [hstep] at h
      obtain ⟨t0, hd, hT, hwin⟩ := ih s finalResp r T hpw2 hgttail h
      refine ⟨t0, ?_, hT, ?_⟩
      · rcases hd with hl | ⟨u, hu, hut⟩
        · exact Or.inl hl
        · exact Or.inr ⟨u, by simp [hu], hut⟩
      · intro u hu raw2 hresp2 h1 h2
        rcases List.mem_cons.mp hu with rfl | hu2
        · rw [hresp] at hresp2
          exact Option.noConfusion hresp2
        · exact hwin u hu2 raw2 hresp2 h1 h2
    · by_cases hneq : formatOutput raw = s.lastOutput
      · by_cases h5 : stabilityThresholdMs ≤ tk.time - s.lastChange
        · have hstep : stabStep name s tk = .stable (mkCapture name raw) tk.time := by
            simp [stabStep, hresp, mkCapture, hneq, h5]
          rw [hstep] at h
          injection h with hr hT
          refine ⟨s.lastChange, Or.inl ⟨rfl, ?_⟩, ?_, ?_⟩
          · rw [← hr]
            exact hneq
          · omega
          · intro u hu raw2 hresp2 h1 h2
            rcases List.mem_cons.mp hu with rfl | hu2
            · rw [hresp] at hresp2
              injection hresp2 with hraw
              subst hraw
              rw [← hr]
              rfl
            · exfalso
              have := hrel u hu2
              omega
        · have hstep : stabStep name s tk = .cont s := by
            simp [stabStep, hresp, mkCapture, hneq, h5]
          rw [hstep] at h
          obtain ⟨t0, hd, hT, hwin⟩ := ih s finalResp r T hpw2 hgttail h
          refine ⟨t0, ?_, hT, ?_⟩
          · rcases hd with hl | ⟨u, hu, hut⟩
            · exact Or.inl hl
            · exact Or.inr ⟨u, by simp [hu], hut⟩
          · intro u hu raw2 hresp2 h1 h2
            rcases List.mem_cons.mp hu with rfl | hu2
            · rw [hresp] at hresp2
              injection hresp2 with hraw
              subst hraw
              rcases hd with ⟨_, hout⟩ | ⟨v, hv, hvt⟩
              · rw [hout, hneq]
              · exfalso
                have := hrel v hv
                omega
            · exact hwin u hu2 raw2 hresp2 h1 h2
      · have hstep : stabStep name s tk = .cont ⟨formatOutput raw, tk.time⟩ := by
          simp [stabStep, hresp, mkCapture, hneq]
        rw [hstep] at h
        have hgt2 : ∀ u ∈ rest, (⟨formatOutput raw, tk.time⟩ : WaitState).lastChange < u.time :=
          fun u hu => hrel u hu
        obtain ⟨t0, hd, hT, hwin⟩ := ih ⟨formatOutput raw, tk.time⟩ finalResp r T hpw2 hgt2 h
        refine ⟨t0, ?_, hT, ?_⟩
        · rcases hd with ⟨hl, _⟩ | ⟨u, hu, hut⟩
          · exact Or.inr ⟨tk, by simp, hl.symm⟩
          · exact Or.inr ⟨u, by simp [hu], hut⟩
        · intro u hu raw2 hresp2 h1 h2
          rcases List.mem_cons.mp hu with rfl | hu2
          · exfalso
            rcases hd with ⟨hl, _⟩ | ⟨v, hv, hvt⟩
            · rw [hl] at h1
              exact lt_irrefl _ h1
            · have := hrel v hv
              omega
          · exact hwin u hu2 raw2 hresp2 h1 h2

/-- Claim C4 (amended): the stability waiter returns Stable only once at
least the 500 ms debounce threshold has elapsed since loop entry, and
every successful capture polled inside the trailing debounce window
(including the returned one) has the same formatted Output as the
returned snapshot. The comparison is on the formatted Output, not the raw
bytes, and only at the 200 ms poll instants — raw bytes are not
guaranteed identical over the window (see the counterexample). -/
theorem c4_stable_debounce (name : String) (start : Nat) (ticks : List StabTick)
    (finalResp : Option String) (r : CaptureRes) (T : Nat)
    (hpw : List.Pairwise (fun a b => a.time < b.time) ticks)
    (hstart : ∀ tk ∈ ticks, start < tk.time)
    (hrun : waitForStabilityRun name start ticks finalResp = .stable r T) :
    stabilityThresholdMs ≤ T - start ∧
    ∀ tk ∈ ticks, ∀ raw, tk.resp = some raw →
      T - stabilityThresholdMs < tk.time → tk.time ≤ T → formatOutput raw = r.output := by
  obtain ⟨t0, hd, hT, hwin⟩ :=
    stabGo_stable_window name ticks ⟨"", start⟩ finalResp r T hpw hstart hrun
  have ht0 : start ≤ t0 := by
    rcases hd with ⟨hl, _⟩ | ⟨u, hu, hut⟩
    · simp [hl]
    · have := hstart u hu
      omega
  refine ⟨by omega, ?_⟩
  intro tk htk raw hresp h1 h2
  have h3 : t0 < tk.time := by omega
  exact hwin tk htk raw hresp h3 h2

/-- Claim C4 counterexample: a run in which the raw captures keep
changing inside whitespace-only lines at every poll — never byte-identical
for 500 ms — yet Stable is returned at t = 800 because the formatted
outputs coincide: the polls at 600 and 800 lie in the trailing 500 ms
window and their raw bytes (and fingerprints) differ. -/
theorem c4_counterexample :
    waitForStabilityRun "s" 0
      [⟨200, some "a\n\n\n"⟩, ⟨400, some "a\n \n\n"⟩, ⟨600, some "a\n\n\n"⟩,
       ⟨800, some "a\n \n\n"⟩] none = .stable (mkCapture "s" "a\n \n\n") 800 ∧
    ("a\n\n\n" ≠ "a\n \n\n") ∧
    (800 - stabilityThresholdMs < 600 ∧ (600 : Nat) ≤ 800) ∧
    calculateHash "a\n\n\n" ≠ calculateHash "a\n \n\n" := by decide

/-- Claim C4 witness: the amended theorem applied at a concrete stable
run (ticks every 200 ms, output settled from the first capture on). -/
theorem c4_witness :
    stabilityThresholdMs ≤ 800 - 0 ∧ formatOutput "b\n" = (mkCapture "s" "b\n").output := by
  have h := c4_stable_debounce "s" 0
    [⟨200, some "b\n"⟩, ⟨400, some "b\n"⟩, ⟨600, some "b\n"⟩, ⟨800, some "b\n"⟩] none
    (mkCapture "s" "b\n") 800 (by decide) (by decide) (by decide)
  exact ⟨h.1, h.2 ⟨600, some "b\n"⟩ (by decide) "b\n" rfl (by decide) (by decide)⟩

end Tmux
